import Mathlib

/-!
Shallow embedding of the session-orchestration core of `src/realtime-hybrid.js`
(hybrid realtime bridge: streaming transcription in, response generation with
tool calls, text-to-speech out).

The mutable module state (`conversationHistory`, `isProcessingResponse`,
`isMuted`, `isPaused`) becomes an explicit `Session` record.  The external
services (response generation, web search, speech synthesis) are modelled by an
`Env` of scripted outcomes consumed in call order, and every observable action
(speaking, emitting a `SIGNAL:` line, arming the forced-exit timer, issuing an
HTTP request) is recorded in an ordered `Effect` trace.  JavaScript exceptions
become `Except Unit`; `try`/`catch`/`finally` blocks are translated into the
corresponding explicit case splits.
-/

/-- Conversation roles used in `conversationHistory` entries. -/
inductive Role where
  | user
  | assistant
  | system
deriving DecidableEq, Repr

/-- One entry of `conversationHistory`: `{ role, content }`. -/
structure Turn where
  role : Role
  content : String
deriving DecidableEq, Repr

/-- The module-level mutable state of `realtime-hybrid.js` (lines 157-162). -/
structure Session where
  conversationHistory : List Turn
  isProcessingResponse : Bool
  isMuted : Bool
  isPaused : Bool
deriving DecidableEq, Repr

/-- Observable external actions, in the order the code performs them.
`speak t` is a successful ElevenLabs synthesis-and-playback of text `t`
(after abbreviation expansion); `signal n` is a `SIGNAL:n` stdout line;
`armExitTimer ms` is the `setTimeout(..., ms)` forced process exit;
`searchRequest q n` is the Exa request with `numResults: n`;
`genRequest` is one chat-completions request. -/
inductive Effect where
  | speak (text : String)
  | signal (name : String)
  | armExitTimer (ms : Nat)
  | searchRequest (query : String) (numResults : Int)
  | genRequest
deriving DecidableEq, Repr

/-- The decoded `toolCall.function.arguments` JSON string: absent/falsy
(`{}` is used), malformed (JSON.parse throws), or an object possibly
holding `query` and `count`. -/
inductive ToolArgs where
  | absent
  | malformed
  | parsed (query : Option String) (count : Option Int)
deriving DecidableEq, Repr

/-- One tool invocation returned by the response generator. -/
structure ToolCall where
  name : String
  args : ToolArgs
deriving DecidableEq, Repr

/-- The `choices[0].message` of a successful chat-completions response:
`content` may be `null`, `tool_calls` may be absent. -/
structure GenMessage where
  content : Option String
  tool_calls : Option (List ToolCall)
deriving DecidableEq, Repr

/-- Outcome of one `generateResponse()` HTTP call: the promise resolves with a
message or rejects (network error, malformed JSON, missing `choices`). -/
inductive GenOutcome where
  | success (msg : GenMessage)
  | failure
deriving DecidableEq, Repr

/-- One raw Exa result object; each field may be absent. -/
structure ExaResult where
  title : Option String
  summary : Option String
  text : Option String
  url : Option String
deriving DecidableEq, Repr

/-- Normalized search result `{title, snippet, url}` (searchExa lines 512-516). -/
structure SearchResult where
  title : String
  snippet : String
  url : String
deriving DecidableEq, Repr

/-- Outcome of one `searchExa` HTTP call: the service answers with a result
list, or the promise rejects (network error, bad JSON, `json.error`). -/
inductive SearchOutcome where
  | ok (results : List ExaResult)
  | fail
deriving DecidableEq, Repr

/-- Outcome of one ElevenLabs synthesis attempt (made only when not muted):
audio is produced and played, or the promise rejects (non-200, network,
player error). -/
inductive TtsOutcome where
  | ok
  | fail
deriving DecidableEq, Repr

/-- Scripted outcomes of the external services, consumed in call order; an
exhausted script behaves as a failing call.  `exaKeySet` models whether
`EXA_API_KEY` is configured. -/
structure Env where
  genResults : List GenOutcome
  searchResults : List SearchOutcome
  ttsResults : List TtsOutcome
  exaKeySet : Bool
deriving DecidableEq, Repr

/-- A whole interpreter configuration: session state, remaining environment
script, and the effect trace accumulated so far (in execution order). -/
structure Ctx where
  sess : Session
  env : Env
  trace : List Effect
deriving DecidableEq, Repr

/-- Truthiness of a JavaScript string value that may be `undefined`/`null`:
falsy exactly when absent or empty. -/
def jsTruthyOptStr : Option String → Bool
  | none => false
  | some s => !(s == "")

/-- JavaScript `a || b` for an optional string `a` against a string default. -/
def jsOrStr (a : Option String) (b : String) : String :=
  match a with
  | none => b
  | some s => if s == "" then b else s

/-- JavaScript `arr.slice(0, stop)`: a nonnegative `stop` takes the first
`stop` elements (clamped to the length); a negative `stop` ends
`max(length + stop, 0)` elements in. -/
def jsSliceTo (l : List α) (stop : Int) : List α :=
  if stop < 0 then l.take (l.length - min (-stop).toNat l.length)
  else l.take stop.toNat

/-!
Abbreviation expansion (`expandAbbreviations`, lines 530-540): eight chained
`String.prototype.replace` calls, each with a global regex of the shape
`/\bTOK\b(?=\s|,|$)/g`.  A match needs the previous input character to be a
non-word character (or start of string) and the character after the token to
be whitespace, a comma, or end of string (which subsumes the trailing `\b`).
Scanning resumes after the consumed token; the inserted replacement is not
rescanned by the same pass.
-/

/-- JavaScript regex word character `\w` (no `u` flag): ASCII letter, digit
or underscore. -/
def wordChar (c : Char) : Bool :=
  c.isAlpha || c.isDigit || c == '_'

/-- The character class of JavaScript `\s`. -/
def jsWhitespace (c : Char) : Bool :=
  c == ' ' || c == '\t' || c == '\n' || c == '\r' || c == '\x0b' || c == '\x0c' ||
  c == ' ' || c == ' ' ||
  (decide (0x2000 ≤ c.toNat) && decide (c.toNat ≤ 0x200a)) ||
  c == ' ' || c == ' ' || c == ' ' || c == ' ' ||
  c == '　' || c == '﻿'

/-- The lookahead `(?=\s|,|$)`: end of input, whitespace, or a comma. -/
def boundaryAfter : List Char → Bool
  | [] => true
  | c :: _ => jsWhitespace c || c == ','

/-- One global-replace pass for the regex `\b(t ts)\b(?=\s|,|$)` with
replacement `rp`, scanning left to right.  `prevWord` records whether the
previous input character was a word character (false at start of string);
after a match it is the word-character status of the token's last input
character.  The fuel argument only bounds the recursion (each step consumes at
least one input character, so fuel equal to the input length is enough). -/
def replacePatGo (t : Char) (ts : List Char) (rp : List Char) : Nat → Bool → List Char → List Char
  | _, _, [] => []
  | 0, _, s => s
  | fuel + 1, prevWord, c :: rest =>
    if !prevWord && (t :: ts).isPrefixOf (c :: rest) && boundaryAfter (rest.drop ts.length) then
      rp ++ replacePatGo t ts rp fuel (wordChar (ts.getLastD t)) (rest.drop ts.length)
    else
      c :: replacePatGo t ts rp fuel (wordChar c) rest

/-- The replace pass at adequate fuel. -/
def replacePat (t : Char) (ts : List Char) (rp : List Char) (w : Bool) (s : List Char) : List Char :=
  replacePatGo t ts rp s.length w s

/-- A replacement-table row: token head character, remaining token characters,
replacement characters. -/
abbrev Rule := Char × List Char × List Char

/-- The fixed abbreviation table, in source order (St, Ave, Blvd, Dr, Rd, Ln,
Ct, Pl). -/
def abbrevPasses : List Rule :=
  [('S', ['t'], "Street".toList),
   ('A', ['v', 'e'], "Avenue".toList),
   ('B', ['l', 'v', 'd'], "Boulevard".toList),
   ('D', ['r'], "Drive".toList),
   ('R', ['d'], "Road".toList),
   ('L', ['n'], "Lane".toList),
   ('C', ['t'], "Court".toList),
   ('P', ['l'], "Place".toList)]

/-- The chain of replace passes, applied in list order (the first table row is
the innermost, first-applied pass, as in the source's method chain). -/
def runPasses : List Rule → List Char → List Char
  | [], s => s
  | (t, ts, rp) :: rest, s => runPasses rest (replacePat t ts rp false s)

/-- The source `expandAbbreviations`: the eight chained `.replace` calls. -/
def expandAbbreviations (text : String) : String :=
  String.mk (runPasses abbrevPasses text.toList)

/-- Whether table row `r` matches at the head of `s`: its token is a literal
prefix and the boundary lookahead holds after it. -/
def ruleMatches (r : Rule) (s : List Char) : Bool :=
  (r.1 :: r.2.1).isPrefixOf s && boundaryAfter (s.drop (r.2.1.length + 1))

/-- First table row matching at the head of `s`, in table order. -/
def findRule : List Rule → List Char → Option Rule
  | [], _ => none
  | r :: rs, s => if ruleMatches r s then some r else findRule rs s

/-- Modelled from the spec: a single simultaneous left-to-right scan that, at
each word-boundary position, replaces whichever table token matches there
(followed by whitespace, a comma, or end of string) and continues after it.
The fuel argument only bounds the recursion. -/
def specRunGo (T : List Rule) : Nat → Bool → List Char → List Char
  | _, _, [] => []
  | 0, _, s => s
  | fuel + 1, prevWord, c :: rest =>
    match (if prevWord then none else findRule T (c :: rest)) with
    | some r => r.2.2 ++ specRunGo T fuel (wordChar (r.2.1.getLastD r.1)) (rest.drop r.2.1.length)
    | none => c :: specRunGo T fuel (wordChar c) rest

/-- The simultaneous scan at adequate fuel. -/
def specRun (T : List Rule) (w : Bool) (s : List Char) : List Char :=
  specRunGo T s.length w s

/-- Modelled from the spec: expansion of the fixed abbreviation table in one
word-boundary-matched pass. -/
def specExpandAbbreviations (text : String) : String :=
  String.mk (specRun abbrevPasses false text.toList)

/-- JavaScript `String.prototype.trim` over the `\s` class. -/
def jsTrim (s : String) : String :=
  String.mk (((s.toList.dropWhile jsWhitespace).reverse.dropWhile jsWhitespace).reverse)

/-- The pure normalization of one Exa result (searchExa lines 512-516):
`title: r.title || ''`, `snippet: r.summary || r.text || ''`,
`url: r.url || ''`. -/
def normalizeResult (r : ExaResult) : SearchResult :=
  ⟨jsOrStr r.title "", jsOrStr r.summary (jsOrStr r.text ""), jsOrStr r.url ""⟩

/-- The result-shaping part of `searchExa(query, count)` (lines 479-517): the
service's `json.results` list is truncated with `.slice(0, count)` and each
entry normalized.  `query` only shapes the HTTP request body. -/
def searchExa (query : String) (count : Int) (serviceResults : List ExaResult) : List SearchResult :=
  (jsSliceTo serviceResults count).map normalizeResult

/-!
The session controller and tool executor (`handleUserSpeech`,
`handleToolCall`, `generateResponse`, `speakElevenLabs`), as big-step
state-passing functions over `Ctx`.
-/

/-- Append one turn to `conversationHistory`. -/
def pushTurn (tn : Turn) (c : Ctx) : Ctx :=
  { c with sess := { c.sess with conversationHistory := c.sess.conversationHistory ++ [tn] } }

/-- Record one observable effect. -/
def emit (e : Effect) (c : Ctx) : Ctx :=
  { c with trace := c.trace ++ [e] }

/-- Set the `isProcessingResponse` flag. -/
def setProcessing (b : Bool) (c : Ctx) : Ctx :=
  { c with sess := { c.sess with isProcessingResponse := b } }

/-- The history-capping step of `handleUserSpeech` (lines 286-288):
`if (conversationHistory.length > 20) conversationHistory = conversationHistory.slice(-20)`. -/
def truncHist (h : List Turn) : List Turn :=
  if h.length > 20 then h.drop (h.length - 20) else h

/-- Apply `truncHist` to the session's history. -/
def applyTrunc (c : Ctx) : Ctx :=
  { c with sess := { c.sess with conversationHistory := truncHist c.sess.conversationHistory } }

/-- The `speakElevenLabs(text)` call (lines 542-597): a no-op when muted
(checked at call time, before any request); otherwise the abbreviation-expanded
text is synthesized and played (`speak` effect) or the promise rejects. -/
def speakElevenLabs (text : String) (c : Ctx) : Except Unit Unit × Ctx :=
  if c.sess.isMuted then
    (Except.ok (), c)
  else
    let processed := expandAbbreviations text
    match c.env.ttsResults with
    | [] => (Except.error (), c)
    | o :: rest =>
      let c := { c with env := { c.env with ttsResults := rest } }
      match o with
      | TtsOutcome.ok => (Except.ok (), emit (Effect.speak processed) c)
      | TtsOutcome.fail => (Except.error (), c)

/-- The `generateResponse()` call (lines 427-477): one chat-completions
request; resolves with `{content, tool_calls}` or rejects. -/
def generateResponse (c : Ctx) : Except Unit GenMessage × Ctx :=
  let c := emit Effect.genRequest c
  match c.env.genResults with
  | [] => (Except.error (), { c with env := { c.env with genResults := [] } })
  | g :: rest =>
    let c := { c with env := { c.env with genResults := rest } }
    match g with
    | GenOutcome.failure => (Except.error (), c)
    | GenOutcome.success msg => (Except.ok msg, c)

/-- The `searchExa(query, count)` call as performed against the environment:
the request carries `numResults: count` unchanged; on resolution the result
list is `.slice(0, count)`-truncated and normalized. -/
def searchExaRun (query : String) (count : Int) (c : Ctx) : Except Unit (List SearchResult) × Ctx :=
  let c := emit (Effect.searchRequest query count) c
  match c.env.searchResults with
  | [] => (Except.error (), { c with env := { c.env with searchResults := [] } })
  | o :: rest =>
    let c := { c with env := { c.env with searchResults := rest } }
    match o with
    | SearchOutcome.fail => (Except.error (), c)
    | SearchOutcome.ok results => (Except.ok (searchExa query count results), c)

/-- The numbered result list fed to the summary prompt (line 404):
`results.map((r, i) => `(i+1). title: snippet`).join('\n')`. -/
def resultsText (rs : List SearchResult) : String :=
  String.intercalate "\n"
    (rs.enum.map (fun p => toString (p.1 + 1) ++ ". " ++ p.2.title ++ ": " ++ p.2.snippet))

/-- The spoken-summary tail of the `web_search` case (lines 408-413): one more
generation call over the history now holding the search results; truthy
content is appended as an assistant turn and spoken when unmuted. -/
def webSearchSummary (c : Ctx) : Except Unit Unit × Ctx :=
  match generateResponse c with
  | (Except.error e, c) => (Except.error e, c)
  | (Except.ok summary, c) =>
    if jsTruthyOptStr summary.content && !c.sess.isMuted then
      let content := summary.content.getD ""
      let c := pushTurn ⟨Role.assistant, content⟩ c
      speakElevenLabs content c
    else
      (Except.ok (), c)

/-- Handling of resolved search results (lines 396-413): empty results give a
spoken apology (when unmuted); otherwise the search marker and the formatted
results are appended to history and a spoken summary is generated. -/
def webSearchResults (searchQuery : String) (results : List SearchResult) (c : Ctx) :
    Except Unit Unit × Ctx :=
  if results.length == 0 then
    (if !c.sess.isMuted then speakElevenLabs "I couldn't find any results for that." c
     else (Except.ok (), c))
  else
    let c := pushTurn ⟨Role.assistant, "[Searched for \"" ++ searchQuery ++ "\"]"⟩ c
    let c := pushTurn ⟨Role.system,
      "Search results:\n" ++ resultsText results ++
      "\n\nRULES: Answer ONLY what was asked. For places/venues, list 2-3 options with name and address only. Example format: \"There's [Name] at [Address], [Name] at [Address], and [Name] at [Address].\" No explanations, no suggestions, no filler. One sentence."⟩ c
    webSearchSummary c

/-- The credential guard and search call of the `web_search` case (lines
385-395) for an already-validated query and count. -/
def webSearchQuery (searchQuery : String) (searchCount : Int) (c : Ctx) :
    Except Unit Unit × Ctx :=
  if !c.env.exaKeySet then
    (if !c.sess.isMuted then speakElevenLabs "Web search isn't configured." c
     else (Except.ok (), c))
  else
    match searchExaRun searchQuery searchCount c with
    | (Except.error e, c) => (Except.error e, c)
    | (Except.ok results, c) => webSearchResults searchQuery results c

/-- The body of the `web_search` case's `try` block (lines 376-413): argument
decoding (`JSON.parse` throwing on malformed arguments), the
`args.count || 3` default, the empty-query guard, then the guarded search.
A thrown error anywhere here is the `Except.error` outcome. -/
def webSearchBody (args : ToolArgs) (c : Ctx) : Except Unit Unit × Ctx :=
  match args with
  | ToolArgs.malformed => (Except.error (), c)
  | ToolArgs.absent => (Except.ok (), c)
  | ToolArgs.parsed query count =>
    if !jsTruthyOptStr query then
      (Except.ok (), c)
    else
      webSearchQuery (query.getD "")
        (match count with | none => 3 | some k => if k == 0 then 3 else k) c

/-- The whole `web_search` case including its `catch` (lines 414-419): a
thrown error is logged and, when unmuted, answered with a spoken apology whose
own rejection propagates. -/
def handleWebSearch (args : ToolArgs) (c : Ctx) : Except Unit Unit × Ctx :=
  match webSearchBody args c with
  | (Except.ok u, c) => (Except.ok u, c)
  | (Except.error _, c) =>
    if !c.sess.isMuted then speakElevenLabs "Sorry, the search failed." c
    else (Except.ok (), c)

/-- The `handleToolCall(toolCall)` dispatch (lines 314-425). -/
def handleToolCall (tc : ToolCall) (c : Ctx) : Except Unit Unit × Ctx :=
  match tc.name with
  | "leave_meeting" =>
    let step :=
      if !c.sess.isMuted then speakElevenLabs "Okay, signing off!" c
      else (Except.ok (), c)
    match step with
    | (Except.error e, c) => (Except.error e, c)
    | (Except.ok _, c) =>
      let c := emit (Effect.signal "LEAVE_MEETING") c
      let c := { c with sess := { c.sess with isPaused := true } }
      (Except.ok (), emit (Effect.armExitTimer 60000) c)
  | "mute_self" =>
    if c.sess.isMuted then
      (Except.ok (), c)
    else
      let c := { c with sess := { c.sess with isMuted := true } }
      (Except.ok (), emit (Effect.signal "MUTED") c)
  | "unmute_self" =>
    if !c.sess.isMuted then
      (Except.ok (), c)
    else
      let c := { c with sess := { c.sess with isMuted := false } }
      (Except.ok (), emit (Effect.signal "UNMUTED") c)
  | "pause_listening" =>
    let c := { c with sess := { c.sess with isPaused := true } }
    let c := emit (Effect.signal "PAUSED") c
    if !c.sess.isMuted then
      speakElevenLabs "I'll stop listening now. Say my name when you want me back." c
    else (Except.ok (), c)
  | "resume_listening" =>
    let c := { c with sess := { c.sess with isPaused := false } }
    let c := emit (Effect.signal "RESUMED") c
    if !c.sess.isMuted then
      speakElevenLabs "I'm listening again. How can I help?" c
    else (Except.ok (), c)
  | "web_search" => handleWebSearch tc.args c
  | _ => (Except.ok (), c)

/-- The sequential awaited loop over returned tool calls (lines 294-298); a
rejection aborts the loop and propagates. -/
def runToolCalls : List ToolCall → Ctx → Except Unit Unit × Ctx
  | [], c => (Except.ok (), c)
  | tc :: rest, c =>
    match handleToolCall tc c with
    | (Except.ok _, c) => runToolCalls rest c
    | (Except.error e, c) => (Except.error e, c)

/-- Handling of a successful generation result inside `handleUserSpeech`
(lines 293-305): the returned tool calls (when the array is present and
nonempty) run sequentially, then truthy content is appended as an assistant
turn and spoken when not muted at that moment. -/
def speechGenerated (msg : GenMessage) (c : Ctx) : Except Unit Unit × Ctx :=
  let step :=
    match msg.tool_calls with
    | some tcs => if tcs.length > 0 then runToolCalls tcs c else (Except.ok (), c)
    | none => (Except.ok (), c)
  match step with
  | (Except.error e, c) => (Except.error e, c)
  | (Except.ok _, c) =>
    if jsTruthyOptStr msg.content && !c.sess.isMuted then
      let content := msg.content.getD ""
      let c := pushTurn ⟨Role.assistant, content⟩ c
      speakElevenLabs content c
    else
      (Except.ok (), c)

/-- The `try` block of `handleUserSpeech` (lines 281-306): append the user
turn, cap the history, generate, then handle the result. -/
def speechBody (transcript : String) (c : Ctx) : Except Unit Unit × Ctx :=
  match generateResponse (applyTrunc (pushTurn ⟨Role.user, transcript⟩ c)) with
  | (Except.error e, c) => (Except.error e, c)
  | (Except.ok msg, c) => speechGenerated msg c

/-- The `handleUserSpeech(transcript)` entry point (lines 273-312): the
re-entrancy guard drops the utterance outright; otherwise the body runs under
`try`/`catch` (the catch only logs) and the `finally` always clears
`isProcessingResponse`. -/
def handleUserSpeech (transcript : String) (c : Ctx) : Ctx :=
  if c.sess.isProcessingResponse then
    c
  else
    let c := setProcessing true c
    let r := speechBody transcript c
    setProcessing false r.2

/-- The `conversation.item.input_audio_transcription.completed` arm of the
websocket message handler (lines 250-255): the utterance is handled only when
the transcript is truthy, its trim is truthy, and the session is not paused. -/
def onTranscriptionCompleted (transcript : Option String) (c : Ctx) : Ctx :=
  match transcript with
  | none => c
  | some t =>
    if !(t == "") && !(jsTrim t == "") && !c.sess.isPaused then handleUserSpeech t c
    else c

/-!
Lemmas: one sequential `.replace` pass per token (the source's chain) computes
the same string as the single simultaneous table scan (`specRun`), because all
tokens and replacements are made of word characters, distinct table rows start
with distinct letters, and a replacement never starts with another row's head
letter, so one pass can neither create nor destroy a later pass's match.
-/

theorem replacePatGo_fuel (t : Char) (ts rp : List Char) :
    ∀ (f₁ f₂ : Nat) (w : Bool) (s : List Char), s.length ≤ f₁ → s.length ≤ f₂ →
      replacePatGo t ts rp f₁ w s = replacePatGo t ts rp f₂ w s := by
  intro f₁
  induction f₁ with
  | zero =>
    intro f₂ w s hs₁ _
    have hs0 : s = [] := List.eq_nil_of_length_eq_zero (Nat.le_zero.mp hs₁)
    subst hs0
    cases f₂ <;> rfl
  | succ f₁ ih =>
    intro f₂ w s hs₁ hs₂
    cases s with
    | nil => cases f₂ <;> rfl
    | cons c rest =>
      cases f₂ with
      | zero => simp at hs₂
      | succ f₂ =>
        simp only [List.length_cons] at hs₁ hs₂
        simp only [replacePatGo]
        by_cases h : (!w && (t :: ts).isPrefixOf (c :: rest) && boundaryAfter (rest.drop ts.length)) = true
        · rw [if_pos h, if_pos h,
            ih f₂ _ (rest.drop ts.length) (by simp only [List.length_drop]; omega)
              (by simp only [List.length_drop]; omega)]
        · rw [if_neg h, if_neg h, ih f₂ _ rest (by omega) (by omega)]

theorem replacePat_nil (t : Char) (ts rp : List Char) (w : Bool) :
    replacePat t ts rp w [] = [] := rfl

theorem replacePat_cons (t : Char) (ts rp : List Char) (w : Bool) (c : Char) (l : List Char) :
    replacePat t ts rp w (c :: l) =
      if !w && (t :: ts).isPrefixOf (c :: l) && boundaryAfter (l.drop ts.length) then
        rp ++ replacePat t ts rp (wordChar (ts.getLastD t)) (l.drop ts.length)
      else
        c :: replacePat t ts rp (wordChar c) l := by
  show replacePatGo t ts rp (c :: l).length w (c :: l) = _
  simp only [List.length_cons, replacePatGo]
  by_cases h : (!w && (t :: ts).isPrefixOf (c :: l) && boundaryAfter (l.drop ts.length)) = true
  · rw [if_pos h, if_pos h,
      replacePatGo_fuel t ts rp l.length (l.drop ts.length).length _ _
        (by simp only [List.length_drop]; omega) le_rfl]
    rfl
  · rw [if_neg h, if_neg h]
    rfl

theorem replacePat_cons_true (t : Char) (ts rp : List Char) (c : Char) (l : List Char) :
    replacePat t ts rp true (c :: l) = c :: replacePat t ts rp (wordChar c) l := by
  rw [replacePat_cons]; simp

theorem replacePat_words (t : Char) (ts rp : List Char) :
    ∀ u v, (∀ ch ∈ u, wordChar ch = true) →
      replacePat t ts rp true (u ++ v) = u ++ replacePat t ts rp true v := by
  intro u
  induction u with
  | nil => intro v _; simp
  | cons a u ih =>
    intro v h
    rw [List.cons_append, replacePat_cons_true, h a (by simp),
      ih v (fun ch hm => h ch (by simp [hm]))]
    rfl

theorem replacePat_true_boundary (t : Char) (ts rp : List Char) (v : List Char) :
    boundaryAfter (replacePat t ts rp true v) = boundaryAfter v := by
  cases v with
  | nil => rw [replacePat_nil]
  | cons c l => rw [replacePat_cons_true]; simp [boundaryAfter]

theorem replacePat_true_match (t : Char) (ts rp : List Char) :
    ∀ (u : List Char), (∀ ch ∈ u, wordChar ch = true) → ∀ (v : List Char),
      (u.isPrefixOf (replacePat t ts rp true v) &&
        boundaryAfter ((replacePat t ts rp true v).drop u.length)) =
      (u.isPrefixOf v && boundaryAfter (v.drop u.length)) := by
  intro u
  induction u with
  | nil =>
    intro _ v
    simp [replacePat_true_boundary]
  | cons a u ih =>
    intro h v
    cases v with
    | nil => rw [replacePat_nil]
    | cons d l =>
      rw [replacePat_cons_true]
      by_cases had : a = d
      · subst had
        have hw : wordChar a = true := h a (by simp)
        rw [hw]
        simp only [List.isPrefixOf_cons₂_self, List.length_cons, List.drop_succ_cons]
        exact ih (fun ch hm => h ch (by simp [hm])) l
      · have hbe : (a == d) = false := by simp [had]
        simp [List.isPrefixOf, hbe]

theorem ruleMatches_replacePat (t : Char) (ts rp : List Char) (r : Rule)
    (hw1 : wordChar r.1 = true) (hw2 : ∀ ch ∈ r.2.1, wordChar ch = true)
    (c : Char) (l : List Char) :
    ruleMatches r (c :: replacePat t ts rp (wordChar c) l) = ruleMatches r (c :: l) := by
  unfold ruleMatches
  by_cases h : r.1 = c
  · have hc : wordChar c = true := h ▸ hw1
    rw [hc]
    have hbe : (r.1 == c) = true := by simp [h]
    simp only [List.isPrefixOf, hbe, Bool.true_and, List.drop_succ_cons]
    exact replacePat_true_match t ts rp r.2.1 hw2 l
  · have hbe : (r.1 == c) = false := by simp [h]
    simp [List.isPrefixOf, hbe]

theorem findRule_congr : ∀ (T : List Rule) (s₁ s₂ : List Char),
    (∀ r ∈ T, ruleMatches r s₁ = ruleMatches r s₂) → findRule T s₁ = findRule T s₂ := by
  intro T
  induction T with
  | nil => intro _ _ _; rfl
  | cons r rs ih =>
    intro s₁ s₂ h
    have hr := h r (by simp)
    simp only [findRule, hr]
    rw [ih s₁ s₂ (fun r' hm => h r' (by simp [hm]))]

theorem findRule_mem : ∀ (T : List Rule) (s : List Char) (r : Rule),
    findRule T s = some r → r ∈ T ∧ ruleMatches r s = true := by
  intro T
  induction T with
  | nil => intro s r h; simp [findRule] at h
  | cons r₀ rs ih =>
    intro s r h
    simp only [findRule] at h
    by_cases hm : ruleMatches r₀ s = true
    · rw [if_pos hm] at h
      cases h
      exact ⟨by simp, hm⟩
    · rw [if_neg hm] at h
      obtain ⟨hmem, hrm⟩ := ih s r h
      exact ⟨by simp [hmem], hrm⟩

theorem findRule_none : ∀ (T : List Rule) (s : List Char),
    (∀ r ∈ T, ruleMatches r s = false) → findRule T s = none := by
  intro T
  induction T with
  | nil => intro _ _; rfl
  | cons r rs ih =>
    intro s h
    have hr := h r (by simp)
    simp only [findRule, hr]
    exact ih s (fun r' hm => h r' (by simp [hm]))

theorem specRunGo_fuel (T : List Rule) :
    ∀ (f₁ f₂ : Nat) (w : Bool) (s : List Char), s.length ≤ f₁ → s.length ≤ f₂ →
      specRunGo T f₁ w s = specRunGo T f₂ w s := by
  intro f₁
  induction f₁ with
  | zero =>
    intro f₂ w s hs₁ _
    have hs0 : s = [] := List.eq_nil_of_length_eq_zero (Nat.le_zero.mp hs₁)
    subst hs0
    cases f₂ <;> rfl
  | succ f₁ ih =>
    intro f₂ w s hs₁ hs₂
    cases s with
    | nil => cases f₂ <;> rfl
    | cons c rest =>
      cases f₂ with
      | zero => simp at hs₂
      | succ f₂ =>
        simp only [List.length_cons] at hs₁ hs₂
        simp only [specRunGo]
        cases hfr : (if w then none else findRule T (c :: rest)) with
        | none =>
          dsimp only
          rw [ih f₂ _ rest (by omega) (by omega)]
        | some r =>
          dsimp only
          rw [ih f₂ _ (rest.drop r.2.1.length) (by simp only [List.length_drop]; omega)
            (by simp only [List.length_drop]; omega)]

theorem specRun_nil (T : List Rule) (w : Bool) : specRun T w [] = [] := rfl

theorem specRun_cons (T : List Rule) (w : Bool) (c : Char) (l : List Char) :
    specRun T w (c :: l) =
      match (if w then none else findRule T (c :: l)) with
      | some r => r.2.2 ++ specRun T (wordChar (r.2.1.getLastD r.1)) (l.drop r.2.1.length)
      | none => c :: specRun T (wordChar c) l := by
  show specRunGo T (c :: l).length w (c :: l) = _
  simp only [List.length_cons, specRunGo]
  cases hfr : (if w then none else findRule T (c :: l)) with
  | none => rfl
  | some r =>
    dsimp only
    rw [specRunGo_fuel T l.length (l.drop r.2.1.length).length _ _
      (by simp only [List.length_drop]; omega) le_rfl]
    rfl

theorem specRun_cons_true (T : List Rule) (c : Char) (l : List Char) :
    specRun T true (c :: l) = c :: specRun T (wordChar c) l := by
  rw [specRun_cons]; simp

theorem specRun_cons_none (T : List Rule) (c : Char) (l : List Char)
    (h : findRule T (c :: l) = none) :
    specRun T false (c :: l) = c :: specRun T (wordChar c) l := by
  rw [specRun_cons]; simp [h]

theorem specRun_cons_some (T : List Rule) (c : Char) (l : List Char) (r : Rule)
    (h : findRule T (c :: l) = some r) :
    specRun T false (c :: l) =
      r.2.2 ++ specRun T (wordChar (r.2.1.getLastD r.1)) (l.drop r.2.1.length) := by
  rw [specRun_cons]; simp [h]

theorem specRun_words (T : List Rule) :
    ∀ u v, (∀ ch ∈ u, wordChar ch = true) →
      specRun T true (u ++ v) = u ++ specRun T true v := by
  intro u
  induction u with
  | nil => intro v _; simp
  | cons a u ih =>
    intro v h
    rw [List.cons_append, specRun_cons_true, h a (by simp),
      ih v (fun ch hm => h ch (by simp [hm]))]
    rfl

theorem specRun_skip (T : List Rule) (w : Bool) (rp v : List Char)
    (hne : rp ≠ []) (hrw : ∀ ch ∈ rp, wordChar ch = true)
    (hrh : ∀ r ∈ T, ¬ rp.headD ' ' = r.1) :
    specRun T w (rp ++ v) = rp ++ specRun T true v := by
  cases rp with
  | nil => exact absurd rfl hne
  | cons a rp' =>
    have hnone : findRule T (a :: (rp' ++ v)) = none := by
      refine findRule_none T _ (fun r hm => ?_)
      have hx : ¬ r.1 = a := fun hh => (hrh r hm) (by simp [hh])
      have hne' : (r.1 == a) = false := by simp [hx]
      simp [ruleMatches, List.isPrefixOf, hne']
    have hstep : specRun T w (a :: (rp' ++ v)) = a :: specRun T (wordChar a) (rp' ++ v) := by
      cases w with
      | true => exact specRun_cons_true T a _
      | false => exact specRun_cons_none T a _ hnone
    rw [List.cons_append, hstep, hrw a (by simp),
      specRun_words T rp' v (fun ch hm => hrw ch (by simp [hm]))]
    rfl

theorem seqStep (t : Char) (ts rp : List Char) (T : List Rule)
    (hlast : wordChar (ts.getLastD t) = true)
    (hne : rp ≠ [])
    (hrw : ∀ ch ∈ rp, wordChar ch = true)
    (hrh : ∀ r ∈ T, ¬ rp.headD ' ' = r.1)
    (hT : ∀ r ∈ T, wordChar r.1 = true ∧ (∀ ch ∈ r.2.1, wordChar ch = true) ∧
          wordChar (r.2.1.getLastD r.1) = true) :
    ∀ (n : Nat) (s : List Char) (w : Bool), s.length ≤ n →
      specRun T w (replacePat t ts rp w s) = specRun ((t, ts, rp) :: T) w s := by
  intro n
  induction n with
  | zero =>
    intro s w hs
    have hs0 : s = [] := List.eq_nil_of_length_eq_zero (Nat.le_zero.mp hs)
    subst hs0
    rw [replacePat_nil, specRun_nil, specRun_nil]
  | succ n ih =>
    intro s w hs
    cases s with
    | nil => rw [replacePat_nil, specRun_nil, specRun_nil]
    | cons c rest =>
      have hrlen : rest.length ≤ n := by
        simp only [List.length_cons] at hs; omega
      cases w with
      | true =>
        rw [replacePat_cons_true, specRun_cons_true, specRun_cons_true,
          ih rest (wordChar c) hrlen]
      | false =>
        by_cases hf : ((t :: ts).isPrefixOf (c :: rest) && boundaryAfter (rest.drop ts.length)) = true
        · have hrm : ruleMatches (t, ts, rp) (c :: rest) = true := by
            simpa [ruleMatches, List.drop_succ_cons] using hf
          have hfind : findRule ((t, ts, rp) :: T) (c :: rest) = some (t, ts, rp) := by
            simp [findRule, hrm]
          have hrepl : replacePat t ts rp false (c :: rest) =
              rp ++ replacePat t ts rp true (rest.drop ts.length) := by
            rw [replacePat_cons, if_pos (by simp [hf]), hlast]
          have hdlen : (rest.drop ts.length).length ≤ n := by
            simp only [List.length_drop]; omega
          rw [hrepl, specRun_skip T false rp _ hne hrw hrh,
            ih (rest.drop ts.length) true hdlen,
            specRun_cons_some _ _ _ _ hfind, hlast]
        · have hfB : ((t :: ts).isPrefixOf (c :: rest) && boundaryAfter (rest.drop ts.length)) = false :=
            Bool.eq_false_iff.mpr hf
          have hrm : ruleMatches (t, ts, rp) (c :: rest) = false := by
            simpa [ruleMatches, List.drop_succ_cons] using hfB
          have hrepl : replacePat t ts rp false (c :: rest) =
              c :: replacePat t ts rp (wordChar c) rest := by
            rw [replacePat_cons, if_neg (by simp [hfB])]
          have hfind : findRule ((t, ts, rp) :: T) (c :: rest) = findRule T (c :: rest) := by
            simp [findRule, hrm]
          have htrans : findRule T (c :: replacePat t ts rp (wordChar c) rest) =
              findRule T (c :: rest) :=
            findRule_congr T _ _
              (fun r hr => ruleMatches_replacePat t ts rp r (hT r hr).1 (hT r hr).2.1 c rest)
          rw [hrepl]
          cases hfr : findRule T (c :: rest) with
          | none =>
            rw [specRun_cons_none T c _ (htrans.trans hfr),
              specRun_cons_none ((t, ts, rp) :: T) c rest (hfind.trans hfr),
              ih rest (wordChar c) hrlen]
          | some r =>
            obtain ⟨hrT, hrmr⟩ := findRule_mem T _ r hfr
            obtain ⟨hw1, hw2, hw3⟩ := hT r hrT
            have hpre : (r.1 :: r.2.1).isPrefixOf (c :: rest) = true := by
              unfold ruleMatches at hrmr
              exact ((Bool.and_eq_true _ _).mp hrmr).1
            have h1 : (r.1 == c) = true ∧ r.2.1.isPrefixOf rest = true := by
              simpa [List.isPrefixOf] using hpre
            have hr1c : r.1 = c := by simpa using h1.1
            have hwcc : wordChar c = true := hr1c ▸ hw1
            obtain ⟨rest₂, hrest⟩ := List.isPrefixOf_iff_prefix.mp h1.2
            have hlen₂ : rest₂.length ≤ n := by
              rw [← hrest] at hrlen
              simp only [List.length_append] at hrlen
              omega
            have hwords : replacePat t ts rp true rest = r.2.1 ++ replacePat t ts rp true rest₂ := by
              rw [← hrest, replacePat_words t ts rp r.2.1 rest₂ hw2]
            rw [hwcc] at htrans
            rw [hwcc, specRun_cons_some T c _ r (htrans.trans hfr), hwords,
              List.drop_left, hw3, ih rest₂ true hlen₂,
              specRun_cons_some ((t, ts, rp) :: T) c rest r (hfind.trans hfr), hw3,
              ← hrest, List.drop_left]

/-- Row conditions for the fusion argument: the token and the replacement are
nonempty word-character strings. -/
def goodRow (r : Rule) : Bool :=
  wordChar r.1 && r.2.1.all wordChar && wordChar (r.2.1.getLastD r.1) &&
  !r.2.2.isEmpty && r.2.2.all wordChar

/-- Table conditions: every row is good and no row's replacement starts with a
later row's head character (so an inserted replacement can never seed a later
pass's match). -/
def goodTable : List Rule → Bool
  | [] => true
  | r :: rs => goodRow r && rs.all (fun r' => !(r.2.2.headD ' ' == r'.1)) && goodTable rs

theorem goodRow_spec (r : Rule) (h : goodRow r = true) :
    wordChar r.1 = true ∧ (∀ ch ∈ r.2.1, wordChar ch = true) ∧
    wordChar (r.2.1.getLastD r.1) = true ∧ r.2.2 ≠ [] ∧
    (∀ ch ∈ r.2.2, wordChar ch = true) := by
  unfold goodRow at h
  simp only [Bool.and_eq_true, List.all_eq_true, Bool.not_eq_true'] at h
  obtain ⟨⟨⟨⟨h1, h2⟩, h3⟩, h4⟩, h5⟩ := h
  refine ⟨h1, h2, h3, ?_, h5⟩
  intro hnil
  rw [hnil] at h4
  simp at h4

theorem goodTable_mem : ∀ (T : List Rule), goodTable T = true → ∀ r ∈ T, goodRow r = true := by
  intro T
  induction T with
  | nil => intro _ r hr; simp at hr
  | cons r₀ rs ih =>
    intro h r hr
    unfold goodTable at h
    simp only [Bool.and_eq_true] at h
    rcases List.mem_cons.mp hr with h1 | h1
    · subst h1; exact h.1.1
    · exact ih h.2 r h1

theorem specRun_table_nil : ∀ (w : Bool) (l : List Char), specRun [] w l = l := by
  intro w l
  induction l generalizing w with
  | nil => rw [specRun_nil]
  | cons c rest ih =>
    cases w with
    | true => rw [specRun_cons_true, ih]
    | false => rw [specRun_cons_none [] c rest rfl, ih]

theorem runPasses_eq_specRun : ∀ (T : List Rule), goodTable T = true →
    ∀ (l : List Char), runPasses T l = specRun T false l := by
  intro T
  induction T with
  | nil => intro _ l; rw [specRun_table_nil]; rfl
  | cons e rs ih =>
    intro h l
    obtain ⟨t, ts, rp⟩ := e
    unfold goodTable at h
    simp only [Bool.and_eq_true] at h
    obtain ⟨⟨hrow, hafter⟩, hrest⟩ := h
    obtain ⟨_, _, hlast, hne, hrw⟩ := goodRow_spec (t, ts, rp) hrow
    have hrh : ∀ r ∈ rs, ¬ (t, ts, rp).2.2.headD ' ' = r.1 := by
      intro r hm he
      have := (List.all_eq_true.mp hafter) r hm
      simp only [Bool.not_eq_true'] at this
      rw [he] at this
      simp at this
    have hT : ∀ r ∈ rs, wordChar r.1 = true ∧ (∀ ch ∈ r.2.1, wordChar ch = true) ∧
        wordChar (r.2.1.getLastD r.1) = true := by
      intro r hm
      obtain ⟨g1, g2, g3, _, _⟩ := goodRow_spec r (goodTable_mem rs hrest r hm)
      exact ⟨g1, g2, g3⟩
    show runPasses rs (replacePat t ts rp false l) = _
    rw [ih hrest (replacePat t ts rp false l),
      seqStep t ts rp rs hlast hne hrw hrh hT l.length l false le_rfl]

/-- C8: on every input string, `expandAbbreviations` agrees with the
single-pass, word-boundary-matched, case-sensitive expansion of the fixed
table St/Ave/Blvd/Dr/Rd/Ln/Ct/Pl, whose tokens count as matched only when
followed by whitespace, a comma, or end of string and preceded by a non-word
character or start of string (all other characters are copied unchanged); in
particular "123 Main St" becomes "123 Main Street" while "Stuart" and
"St. Louis" are untouched. -/
theorem expandAbbreviations_word_boundary :
    (∀ s : String, expandAbbreviations s = specExpandAbbreviations s) ∧
    expandAbbreviations "123 Main St" = "123 Main Street" ∧
    expandAbbreviations "Stuart" = "Stuart" ∧
    expandAbbreviations "St. Louis" = "St. Louis" := by
  refine ⟨fun s => ?_, by decide, by decide, by decide⟩
  unfold expandAbbreviations specExpandAbbreviations
  rw [runPasses_eq_specRun abbrevPasses (by decide) s.toList]

/-!
Claims about the session controller.
-/

/-- C1: an utterance delivered while `isProcessingResponse` is true leaves the
whole configuration unchanged — nothing is appended to history, no generation
request, tool execution or speech happens, and nothing is queued; the handler
returns immediately. -/
theorem busy_utterance_dropped (t : String) (c : Ctx)
    (h : c.sess.isProcessingResponse = true) :
    handleUserSpeech t c = c := by
  unfold handleUserSpeech
  rw [if_pos h]

/-- Witness for C1 at a concrete busy configuration. -/
theorem busy_utterance_dropped_at :
    handleUserSpeech "hello" ⟨⟨[⟨Role.user, "hi"⟩], true, false, false⟩, ⟨[], [], [], false⟩, []⟩ =
      ⟨⟨[⟨Role.user, "hi"⟩], true, false, false⟩, ⟨[], [], [], false⟩, []⟩ :=
  busy_utterance_dropped "hello"
    ⟨⟨[⟨Role.user, "hi"⟩], true, false, false⟩, ⟨[], [], [], false⟩, []⟩ rfl

/-- C7: while `isPaused` is true, a completed-transcription event is ignored
entirely — the configuration (history, flags, environment, trace) is
unchanged, so no generation cycle, tool execution or speech happens. -/
theorem paused_transcription_ignored (tr : Option String) (c : Ctx)
    (h : c.sess.isPaused = true) :
    onTranscriptionCompleted tr c = c := by
  unfold onTranscriptionCompleted
  cases tr with
  | none => rfl
  | some t => simp [h]

/-- Witness for C7 at a concrete paused configuration. -/
theorem paused_transcription_ignored_at :
    onTranscriptionCompleted (some "hello there") ⟨⟨[], false, false, true⟩, ⟨[], [], [], false⟩, []⟩ =
      ⟨⟨[], false, false, true⟩, ⟨[], [], [], false⟩, []⟩ :=
  paused_transcription_ignored (some "hello there")
    ⟨⟨[], false, false, true⟩, ⟨[], [], [], false⟩, []⟩ rfl

/-- C10: a completed-transcription event with an absent transcript, or whose
transcript trims to the empty string (empty or all-whitespace), is ignored
entirely even while not paused: the configuration — including
`isProcessingResponse` — is unchanged. -/
theorem blank_transcription_ignored (c : Ctx) (s : String) (h : jsTrim s = "") :
    onTranscriptionCompleted none c = c ∧ onTranscriptionCompleted (some s) c = c := by
  refine ⟨rfl, ?_⟩
  unfold onTranscriptionCompleted
  simp [h]

/-- Witness for C10 at a whitespace-only transcript. -/
theorem blank_transcription_ignored_at :
    onTranscriptionCompleted none ⟨⟨[], false, false, false⟩, ⟨[], [], [], false⟩, []⟩ =
      ⟨⟨[], false, false, false⟩, ⟨[], [], [], false⟩, []⟩ ∧
    onTranscriptionCompleted (some "  	") ⟨⟨[], false, false, false⟩, ⟨[], [], [], false⟩, []⟩ =
      ⟨⟨[], false, false, false⟩, ⟨[], [], [], false⟩, []⟩ :=
  blank_transcription_ignored ⟨⟨[], false, false, false⟩, ⟨[], [], [], false⟩, []⟩ "  	" (by decide)

/-- Six Exa results, as the service may return when more than five are
requested. -/
def exaSix : List ExaResult :=
  List.replicate 6 ⟨some "t", some "s", none, some "u"⟩

/-- Counterexample for C9: `searchExa` performs no clamping of the requested
count to 1-5.  With `count = 6` the Exa request itself carries
`numResults: 6`, and when the service returns six results the normalized
list handed back has six entries — more than five. -/
theorem searchExa_count_unclamped :
    (searchExa "q" 6 exaSix).length = 6 ∧
    ¬ (searchExa "q" 6 exaSix).length ≤ 5 ∧
    (handleToolCall ⟨"web_search", ToolArgs.parsed (some "q") (some 6)⟩
        ⟨⟨[], false, true, false⟩,
         ⟨[GenOutcome.success ⟨none, none⟩], [SearchOutcome.ok exaSix], [], true⟩, []⟩).2.trace =
      [Effect.searchRequest "q" 6, Effect.genRequest] := by
  refine ⟨by decide, by decide, ?_⟩
  rfl

/-- C9 amended: the requested count is used as given (no clamping to the
service's 1-5 range): for any nonnegative count the normalized result list
has exactly `min count |serviceResults|` entries, so it exceeds five entries
whenever more than five are requested and returned. -/
theorem searchExa_length (q : String) (k : Int) (rs : List ExaResult) (h : 0 ≤ k) :
    (searchExa q k rs).length = min k.toNat rs.length := by
  unfold searchExa jsSliceTo
  rw [if_neg (by omega)]
  simp [List.length_take]

/-- Witness for the amended C9 at `count = 6` against six service results. -/
theorem searchExa_length_at :
    (searchExa "q" 6 exaSix).length = min (Int.toNat 6) exaSix.length :=
  searchExa_length "q" 6 exaSix (by decide)

/-- C5: executing `leave_meeting` first speaks the acknowledgement (when
unmuted), and only after the acknowledgement completes emits the
`LEAVE_MEETING` signal, sets `isPaused`, and arms the 60-second forced-exit
timer right at signal time; when the acknowledgement rejects, no signal is
emitted at all, so the signal never precedes the acknowledgement. -/
theorem leave_meeting_ack_before_signal (c : Ctx) :
    (c.sess.isMuted = false → ∀ rest, c.env.ttsResults = TtsOutcome.ok :: rest →
      (handleToolCall ⟨"leave_meeting", ToolArgs.absent⟩ c).2.trace =
        c.trace ++ [Effect.speak (expandAbbreviations "Okay, signing off!"),
          Effect.signal "LEAVE_MEETING", Effect.armExitTimer 60000] ∧
      (handleToolCall ⟨"leave_meeting", ToolArgs.absent⟩ c).2.sess.isPaused = true) ∧
    (c.sess.isMuted = false → ∀ rest, c.env.ttsResults = TtsOutcome.fail :: rest →
      (handleToolCall ⟨"leave_meeting", ToolArgs.absent⟩ c).2.trace = c.trace) ∧
    (c.sess.isMuted = true →
      (handleToolCall ⟨"leave_meeting", ToolArgs.absent⟩ c).2.trace =
        c.trace ++ [Effect.signal "LEAVE_MEETING", Effect.armExitTimer 60000] ∧
      (handleToolCall ⟨"leave_meeting", ToolArgs.absent⟩ c).2.sess.isPaused = true) := by
  refine ⟨?_, ?_, ?_⟩
  · intro hm rest htts
    simp [handleToolCall, speakElevenLabs, emit, hm, htts]
  · intro hm rest htts
    simp [handleToolCall, speakElevenLabs, emit, hm, htts]
  · intro hm
    simp [handleToolCall, speakElevenLabs, emit, hm]

/-- Witness for C5 at a concrete unmuted configuration with a succeeding
synthesis call. -/
theorem leave_meeting_ack_before_signal_at :
    (handleToolCall ⟨"leave_meeting", ToolArgs.absent⟩
        ⟨⟨[], false, false, false⟩, ⟨[], [], [TtsOutcome.ok], false⟩, []⟩).2.trace =
      [] ++ [Effect.speak (expandAbbreviations "Okay, signing off!"),
        Effect.signal "LEAVE_MEETING", Effect.armExitTimer 60000] ∧
    (handleToolCall ⟨"leave_meeting", ToolArgs.absent⟩
        ⟨⟨[], false, false, false⟩, ⟨[], [], [TtsOutcome.ok], false⟩, []⟩).2.sess.isPaused = true :=
  (leave_meeting_ack_before_signal
    ⟨⟨[], false, false, false⟩, ⟨[], [], [TtsOutcome.ok], false⟩, []⟩).1 rfl [] rfl

/-- C6: `mute_self` while already muted and `unmute_self` while already
unmuted return with the configuration untouched (no state change, no signal,
no acknowledgement), while `pause_listening` and `resume_listening` re-run
their full effect — flag write, signal, spoken acknowledgement when unmuted —
even when the flag already has the target value. -/
theorem duplicate_tool_call_guards (c : Ctx) :
    (c.sess.isMuted = true →
      handleToolCall ⟨"mute_self", ToolArgs.absent⟩ c = (Except.ok (), c)) ∧
    (c.sess.isMuted = false →
      handleToolCall ⟨"unmute_self", ToolArgs.absent⟩ c = (Except.ok (), c)) ∧
    (∀ rest, c.sess.isPaused = true → c.sess.isMuted = false →
      c.env.ttsResults = TtsOutcome.ok :: rest →
      (handleToolCall ⟨"pause_listening", ToolArgs.absent⟩ c).2.sess.isPaused = true ∧
      (handleToolCall ⟨"pause_listening", ToolArgs.absent⟩ c).2.trace =
        c.trace ++ [Effect.signal "PAUSED",
          Effect.speak (expandAbbreviations "I'll stop listening now. Say my name when you want me back.")]) ∧
    (∀ rest, c.sess.isPaused = false → c.sess.isMuted = false →
      c.env.ttsResults = TtsOutcome.ok :: rest →
      (handleToolCall ⟨"resume_listening", ToolArgs.absent⟩ c).2.sess.isPaused = false ∧
      (handleToolCall ⟨"resume_listening", ToolArgs.absent⟩ c).2.trace =
        c.trace ++ [Effect.signal "RESUMED",
          Effect.speak (expandAbbreviations "I'm listening again. How can I help?")]) := by
  refine ⟨?_, ?_, ?_, ?_⟩
  · intro hm
    simp [handleToolCall, hm]
  · intro hm
    simp [handleToolCall, hm]
  · intro rest _ hm htts
    simp [handleToolCall, speakElevenLabs, emit, hm, htts]
  · intro rest _ hm htts
    simp [handleToolCall, speakElevenLabs, emit, hm, htts]

/-- Witness for C6: both duplicate guards and both re-executions at concrete
configurations (already muted, already unmuted, already paused, already
listening). -/
theorem duplicate_tool_call_guards_at :
    (handleToolCall ⟨"mute_self", ToolArgs.absent⟩
        ⟨⟨[], false, true, false⟩, ⟨[], [], [TtsOutcome.ok], false⟩, []⟩ =
      (Except.ok (), ⟨⟨[], false, true, false⟩, ⟨[], [], [TtsOutcome.ok], false⟩, []⟩)) ∧
    (handleToolCall ⟨"unmute_self", ToolArgs.absent⟩
        ⟨⟨[], false, false, true⟩, ⟨[], [], [TtsOutcome.ok], false⟩, []⟩ =
      (Except.ok (), ⟨⟨[], false, false, true⟩, ⟨[], [], [TtsOutcome.ok], false⟩, []⟩)) ∧
    ((handleToolCall ⟨"pause_listening", ToolArgs.absent⟩
        ⟨⟨[], false, false, true⟩, ⟨[], [], [TtsOutcome.ok], false⟩, []⟩).2.sess.isPaused = true ∧
     (handleToolCall ⟨"pause_listening", ToolArgs.absent⟩
        ⟨⟨[], false, false, true⟩, ⟨[], [], [TtsOutcome.ok], false⟩, []⟩).2.trace =
       [] ++ [Effect.signal "PAUSED",
         Effect.speak (expandAbbreviations "I'll stop listening now. Say my name when you want me back.")]) :=
  ⟨(duplicate_tool_call_guards
      ⟨⟨[], false, true, false⟩, ⟨[], [], [TtsOutcome.ok], false⟩, []⟩).1 rfl,
   (duplicate_tool_call_guards
      ⟨⟨[], false, false, true⟩, ⟨[], [], [TtsOutcome.ok], false⟩, []⟩).2.1 rfl,
   (duplicate_tool_call_guards
      ⟨⟨[], false, false, true⟩, ⟨[], [], [TtsOutcome.ok], false⟩, []⟩).2.2.1 [] rfl rfl rfl⟩

/-- C4: whenever the re-entrancy guard admits an utterance,
`isProcessingResponse` is false again when the cycle finishes, whatever the
environment does (any generation, tool or synthesis failure included, since
the configuration is universally quantified); and on a generation failure the
cycle ends with only the user turn recorded and only the generation request in
the trace — no assistant turn, nothing spoken — leaving the session ready for
the next utterance. -/
theorem processing_flag_cleared (t : String) (c : Ctx)
    (h : c.sess.isProcessingResponse = false) :
    (handleUserSpeech t c).sess.isProcessingResponse = false ∧
    (∀ rest, c.env.genResults = GenOutcome.failure :: rest →
      (handleUserSpeech t c).sess.conversationHistory =
        truncHist (c.sess.conversationHistory ++ [⟨Role.user, t⟩]) ∧
      (handleUserSpeech t c).trace = c.trace ++ [Effect.genRequest]) := by
  constructor
  · unfold handleUserSpeech
    rw [if_neg (by simp [h])]
    rfl
  · intro rest hg
    unfold handleUserSpeech
    rw [if_neg (by simp [h])]
    simp [speechBody, speechGenerated, generateResponse, pushTurn, applyTrunc, emit, setProcessing, hg]

/-- Witness for C4 at a concrete idle configuration whose generation call
fails. -/
theorem processing_flag_cleared_at :
    (handleUserSpeech "hi"
        ⟨⟨[], false, false, false⟩, ⟨[GenOutcome.failure], [], [], false⟩, []⟩).sess.isProcessingResponse = false ∧
    ((handleUserSpeech "hi"
        ⟨⟨[], false, false, false⟩, ⟨[GenOutcome.failure], [], [], false⟩, []⟩).sess.conversationHistory =
      truncHist ([] ++ [⟨Role.user, "hi"⟩]) ∧
     (handleUserSpeech "hi"
        ⟨⟨[], false, false, false⟩, ⟨[GenOutcome.failure], [], [], false⟩, []⟩).trace =
      [] ++ [Effect.genRequest]) :=
  ⟨(processing_flag_cleared "hi"
      ⟨⟨[], false, false, false⟩, ⟨[GenOutcome.failure], [], [], false⟩, []⟩ rfl).1,
   (processing_flag_cleared "hi"
      ⟨⟨[], false, false, false⟩, ⟨[GenOutcome.failure], [], [], false⟩, []⟩ rfl).2 [] rfl⟩

/-- Counterexample for C3: while muted (and not paused), an utterance whose
generation returns spoken content "hello" ends with the content neither
appended to history (only the user turn is there, no assistant turn) nor
spoken (the trace holds only the generation request) — the code discards
muted content entirely instead of appending it unspoken. -/
theorem muted_content_not_appended :
    Turn.mk Role.assistant "hello" ∉
      (handleUserSpeech "hi"
        ⟨⟨[], false, true, false⟩,
         ⟨[GenOutcome.success ⟨some "hello", none⟩], [], [TtsOutcome.ok], false⟩, []⟩).sess.conversationHistory ∧
    (handleUserSpeech "hi"
        ⟨⟨[], false, true, false⟩,
         ⟨[GenOutcome.success ⟨some "hello", none⟩], [], [TtsOutcome.ok], false⟩, []⟩).sess.conversationHistory =
      [⟨Role.user, "hi"⟩] ∧
    (handleUserSpeech "hi"
        ⟨⟨[], false, true, false⟩,
         ⟨[GenOutcome.success ⟨some "hello", none⟩], [], [TtsOutcome.ok], false⟩, []⟩).trace =
      [Effect.genRequest] := by
  decide

/-- C3 amended: while muted and not processing, an utterance is still appended
to history as a user turn, and returned tool calls still execute (an
`unmute_self` call flips the flag and emits its signal), but returned spoken
content is discarded entirely: it is neither appended to history nor spoken. -/
theorem muted_utterance_processed (t s : String) (c : Ctx)
    (hm : c.sess.isMuted = true) (hp : c.sess.isProcessingResponse = false) :
    (∀ rest, c.env.genResults = GenOutcome.success ⟨some s, none⟩ :: rest →
      (handleUserSpeech t c).sess.conversationHistory =
        truncHist (c.sess.conversationHistory ++ [⟨Role.user, t⟩]) ∧
      (handleUserSpeech t c).trace = c.trace ++ [Effect.genRequest]) ∧
    (∀ rest, c.env.genResults =
        GenOutcome.success ⟨none, some [⟨"unmute_self", ToolArgs.absent⟩]⟩ :: rest →
      (handleUserSpeech t c).sess.isMuted = false ∧
      (handleUserSpeech t c).trace = c.trace ++ [Effect.genRequest, Effect.signal "UNMUTED"] ∧
      (handleUserSpeech t c).sess.conversationHistory =
        truncHist (c.sess.conversationHistory ++ [⟨Role.user, t⟩])) := by
  constructor
  · intro rest hg
    unfold handleUserSpeech
    rw [if_neg (by simp [hp])]
    simp [speechBody, speechGenerated, generateResponse, pushTurn, applyTrunc, emit, setProcessing, hg, hm]
  · intro rest hg
    unfold handleUserSpeech
    rw [if_neg (by simp [hp])]
    simp [speechBody, speechGenerated, generateResponse, runToolCalls, handleToolCall,
      pushTurn, applyTrunc, emit, setProcessing, jsTruthyOptStr, hg, hm]

/-- Witness for the amended C3 at a concrete muted configuration, covering
both the discarded-content and the executed-unmute cases. -/
theorem muted_utterance_processed_at :
    ((handleUserSpeech "hi"
        ⟨⟨[], false, true, false⟩,
         ⟨[GenOutcome.success ⟨some "hello", none⟩], [], [], false⟩, []⟩).sess.conversationHistory =
      truncHist ([] ++ [⟨Role.user, "hi"⟩]) ∧
     (handleUserSpeech "hi"
        ⟨⟨[], false, true, false⟩,
         ⟨[GenOutcome.success ⟨some "hello", none⟩], [], [], false⟩, []⟩).trace =
      [] ++ [Effect.genRequest]) ∧
    ((handleUserSpeech "unmute"
        ⟨⟨[], false, true, false⟩,
         ⟨[GenOutcome.success ⟨none, some [⟨"unmute_self", ToolArgs.absent⟩]⟩], [], [], false⟩, []⟩).sess.isMuted = false ∧
     (handleUserSpeech "unmute"
        ⟨⟨[], false, true, false⟩,
         ⟨[GenOutcome.success ⟨none, some [⟨"unmute_self", ToolArgs.absent⟩]⟩], [], [], false⟩, []⟩).trace =
      [] ++ [Effect.genRequest, Effect.signal "UNMUTED"] ∧
     (handleUserSpeech "unmute"
        ⟨⟨[], false, true, false⟩,
         ⟨[GenOutcome.success ⟨none, some [⟨"unmute_self", ToolArgs.absent⟩]⟩], [], [], false⟩, []⟩).sess.conversationHistory =
      truncHist ([] ++ [⟨Role.user, "unmute"⟩])) :=
  ⟨(muted_utterance_processed "hi" "hello"
      ⟨⟨[], false, true, false⟩,
       ⟨[GenOutcome.success ⟨some "hello", none⟩], [], [], false⟩, []⟩ rfl rfl).1 [] rfl,
   (muted_utterance_processed "unmute" "hello"
      ⟨⟨[], false, true, false⟩,
       ⟨[GenOutcome.success ⟨none, some [⟨"unmute_self", ToolArgs.absent⟩]⟩], [], [], false⟩, []⟩
      rfl rfl).2 [] rfl⟩

/-!
Frame and growth lemmas: the service calls never touch the conversation
history, and every step of a processing cycle only appends to it.
-/

theorem speakElevenLabs_hist (s : String) (c : Ctx) :
    (speakElevenLabs s c).2.sess.conversationHistory = c.sess.conversationHistory := by
  unfold speakElevenLabs
  split
  · rfl
  · split
    · rfl
    · split <;> rfl

theorem generateResponse_hist (c : Ctx) :
    (generateResponse c).2.sess.conversationHistory = c.sess.conversationHistory := by
  unfold generateResponse
  dsimp only
  split
  · rfl
  · split <;> rfl

theorem searchExaRun_hist (q : String) (k : Int) (c : Ctx) :
    (searchExaRun q k c).2.sess.conversationHistory = c.sess.conversationHistory := by
  unfold searchExaRun
  dsimp only
  split
  · rfl
  · split <;> rfl

theorem webSearchSummary_hist (c : Ctx) :
    c.sess.conversationHistory <+: (webSearchSummary c).2.sess.conversationHistory := by
  have hh := generateResponse_hist c
  unfold webSearchSummary
  cases hg : generateResponse c with
  | mk r c' =>
    rw [hg] at hh
    cases r with
    | error e => exact hh ▸ List.prefix_refl _
    | ok summary =>
      dsimp only
      split
      · rw [speakElevenLabs_hist]
        simp only [pushTurn]
        rw [hh]
        exact List.prefix_append _ _
      · exact hh ▸ List.prefix_refl _

theorem webSearchResults_hist (q : String) (rs : List SearchResult) (c : Ctx) :
    c.sess.conversationHistory <+: (webSearchResults q rs c).2.sess.conversationHistory := by
  unfold webSearchResults
  split
  · split
    · rw [speakElevenLabs_hist]
    · exact List.prefix_refl _
  · refine List.IsPrefix.trans ?_ (webSearchSummary_hist _)
    simp only [pushTurn]
    exact (List.prefix_append _ _).trans (List.prefix_append _ _)

theorem webSearchQuery_hist (q : String) (k : Int) (c : Ctx) :
    c.sess.conversationHistory <+: (webSearchQuery q k c).2.sess.conversationHistory := by
  have hh := searchExaRun_hist q k c
  unfold webSearchQuery
  split
  · split
    · rw [speakElevenLabs_hist]
    · exact List.prefix_refl _
  · cases hs : searchExaRun q k c with
    | mk r c' =>
      rw [hs] at hh
      cases r with
      | error e => exact hh ▸ List.prefix_refl _
      | ok results =>
        dsimp only
        exact hh ▸ webSearchResults_hist q results c'

theorem webSearchBody_hist (a : ToolArgs) (c : Ctx) :
    c.sess.conversationHistory <+: (webSearchBody a c).2.sess.conversationHistory := by
  unfold webSearchBody
  split
  · exact List.prefix_refl _
  · exact List.prefix_refl _
  · split
    · exact List.prefix_refl _
    · exact webSearchQuery_hist _ _ c

theorem handleWebSearch_hist (a : ToolArgs) (c : Ctx) :
    c.sess.conversationHistory <+: (handleWebSearch a c).2.sess.conversationHistory := by
  have hh := webSearchBody_hist a c
  unfold handleWebSearch
  cases hw : webSearchBody a c with
  | mk r c' =>
    rw [hw] at hh
    cases r with
    | ok u => exact hh
    | error e =>
      dsimp only
      split
      · rw [speakElevenLabs_hist]
        exact hh
      · exact hh

theorem handleToolCall_hist (tc : ToolCall) (c : Ctx) :
    c.sess.conversationHistory <+: (handleToolCall tc c).2.sess.conversationHistory := by
  unfold handleToolCall
  split
  · cases hm : c.sess.isMuted with
    | false =>
      simp only [hm, Bool.not_false, if_pos]
      have hh := speakElevenLabs_hist "Okay, signing off!" c
      cases hsp : speakElevenLabs "Okay, signing off!" c with
      | mk r c' =>
        rw [hsp] at hh
        cases r with
        | error e => exact hh ▸ List.prefix_refl _
        | ok u => exact hh ▸ List.prefix_refl _
    | true =>
      simp only [hm, Bool.not_true]
      exact List.prefix_refl _
  · split
    · exact List.prefix_refl _
    · exact List.prefix_refl _
  · split
    · exact List.prefix_refl _
    · exact List.prefix_refl _
  · dsimp only
    split
    · rw [speakElevenLabs_hist]
      exact List.prefix_refl _
    · exact List.prefix_refl _
  · dsimp only
    split
    · rw [speakElevenLabs_hist]
      exact List.prefix_refl _
    · exact List.prefix_refl _
  · exact handleWebSearch_hist _ c
  · exact List.prefix_refl _

theorem runToolCalls_hist : ∀ (tcs : List ToolCall) (c : Ctx),
    c.sess.conversationHistory <+: (runToolCalls tcs c).2.sess.conversationHistory := by
  intro tcs
  induction tcs with
  | nil => intro c; exact List.prefix_refl _
  | cons tc rest ih =>
    intro c
    have hh := handleToolCall_hist tc c
    unfold runToolCalls
    cases ht : handleToolCall tc c with
    | mk r c' =>
      rw [ht] at hh
      cases r with
      | ok u => exact hh.trans (ih c')
      | error e => exact hh

theorem speechGenerated_hist (msg : GenMessage) (c : Ctx) :
    c.sess.conversationHistory <+: (speechGenerated msg c).2.sess.conversationHistory := by
  unfold speechGenerated
  have hstep : c.sess.conversationHistory <+:
      ((match msg.tool_calls with
        | some tcs => if tcs.length > 0 then runToolCalls tcs c else (Except.ok (), c)
        | none => (Except.ok (), c)) : Except Unit Unit × Ctx).2.sess.conversationHistory := by
    cases msg.tool_calls with
    | none => exact List.prefix_refl _
    | some tcs =>
      dsimp only
      split
      · exact runToolCalls_hist tcs c
      · exact List.prefix_refl _
  cases hs : ((match msg.tool_calls with
      | some tcs => if tcs.length > 0 then runToolCalls tcs c else (Except.ok (), c)
      | none => (Except.ok (), c)) : Except Unit Unit × Ctx) with
  | mk r2 c3 =>
    rw [hs] at hstep
    cases r2 with
    | error e => exact hstep
    | ok u =>
      dsimp only
      split
      · rw [speakElevenLabs_hist]
        simp only [pushTurn]
        exact hstep.trans (List.prefix_append _ _)
      · exact hstep

theorem speechBody_hist (t : String) (c : Ctx) :
    truncHist (c.sess.conversationHistory ++ [⟨Role.user, t⟩]) <+:
      (speechBody t c).2.sess.conversationHistory := by
  have hbase : (applyTrunc (pushTurn ⟨Role.user, t⟩ c)).sess.conversationHistory =
      truncHist (c.sess.conversationHistory ++ [⟨Role.user, t⟩]) := rfl
  have hh := generateResponse_hist (applyTrunc (pushTurn ⟨Role.user, t⟩ c))
  rw [hbase] at hh
  unfold speechBody
  cases hg : generateResponse (applyTrunc (pushTurn ⟨Role.user, t⟩ c)) with
  | mk r c2 =>
    rw [hg] at hh
    cases r with
    | error e => exact hh ▸ List.prefix_refl _
    | ok msg =>
      dsimp only
      exact hh ▸ speechGenerated_hist msg c2

/-- Counterexample for C2: `conversationHistory` can exceed 20 entries,
because only the user-turn append is followed by truncation.  Starting from a
full history of 20 turns, one utterance that triggers a `web_search` tool call
ends the cycle with 23 entries: the user turn is truncated back to 20, but the
search marker, the injected results message and the spoken summary are
appended with no truncation. -/
theorem history_length_exceeds_twenty :
    (handleUserSpeech "find pizza"
        ⟨⟨List.replicate 20 ⟨Role.user, "x"⟩, false, false, false⟩,
         ⟨[GenOutcome.success ⟨none, some [⟨"web_search", ToolArgs.parsed (some "pizza") none⟩]⟩,
           GenOutcome.success ⟨some "Two options nearby.", none⟩],
          [SearchOutcome.ok [⟨some "A", some "B", none, some "C"⟩]],
          [TtsOutcome.ok], true⟩, []⟩).sess.conversationHistory.length = 23 ∧
    ¬ (handleUserSpeech "find pizza"
        ⟨⟨List.replicate 20 ⟨Role.user, "x"⟩, false, false, false⟩,
         ⟨[GenOutcome.success ⟨none, some [⟨"web_search", ToolArgs.parsed (some "pizza") none⟩]⟩,
           GenOutcome.success ⟨some "Two options nearby.", none⟩],
          [SearchOutcome.ok [⟨some "A", some "B", none, some "C"⟩]],
          [TtsOutcome.ok], true⟩, []⟩).sess.conversationHistory.length ≤ 20 := by
  decide

/-- C2 amended: the truncation step itself caps the history at 20 entries and
keeps a suffix (the most recent entries, in order), but it runs only right
after the user-turn append: every admitted utterance's final history merely
extends `truncHist (previous history ++ [user turn])`, and the appends made
later in the cycle (web_search marker, results message, assistant turns) are
not followed by truncation, so the bound can be exceeded until the next
utterance is admitted. -/
theorem truncation_only_at_user_append (t : String) (c : Ctx)
    (h : c.sess.isProcessingResponse = false) :
    (∀ hist : List Turn, (truncHist hist).length ≤ 20 ∧ truncHist hist <:+ hist) ∧
    truncHist (c.sess.conversationHistory ++ [⟨Role.user, t⟩]) <+:
      (handleUserSpeech t c).sess.conversationHistory := by
  constructor
  · intro hist
    constructor
    · unfold truncHist
      split
      · simp only [List.length_drop]
        omega
      · omega
    · unfold truncHist
      split
      · exact List.drop_suffix _ _
      · exact List.suffix_refl _
  · unfold handleUserSpeech
    rw [if_neg (by simp [h])]
    exact speechBody_hist t (setProcessing true c)

/-- Witness for the amended C2: the cap-and-suffix facts at a 25-entry list,
and the truncated-user-append prefix at a concrete idle configuration. -/
theorem truncation_only_at_user_append_at :
    ((truncHist (List.replicate 25 ⟨Role.user, "x"⟩)).length ≤ 20 ∧
      truncHist (List.replicate 25 ⟨Role.user, "x"⟩) <:+ List.replicate 25 ⟨Role.user, "x"⟩) ∧
    truncHist ([] ++ [⟨Role.user, "hi"⟩]) <+:
      (handleUserSpeech "hi"
        ⟨⟨[], false, false, false⟩, ⟨[], [], [], false⟩, []⟩).sess.conversationHistory :=
  ⟨(truncation_only_at_user_append "hi"
      ⟨⟨[], false, false, false⟩, ⟨[], [], [], false⟩, []⟩ rfl).1 (List.replicate 25 ⟨Role.user, "x"⟩),
   (truncation_only_at_user_append "hi"
      ⟨⟨[], false, false, false⟩, ⟨[], [], [], false⟩, []⟩ rfl).2⟩
